import Mathlib

set_option autoImplicit false

/-!
Verification of the travel-mcp chat client and agent orchestration design.

The `Transport` namespace models the streaming transport client of
`frontend/src/api/client.ts` (`AgentClient.streamQuery`): a buffered
reader that accumulates decoded bytes, splits on newline, decodes complete
lines carrying the literal `data:` prefix, retains the trailing segment for
the next read, and flushes the remaining buffered segment at stream end.
Characters stand in for decoded bytes (the `TextDecoder` with streaming
semantics guarantees reads are decoded at character granularity).

The `Chat` namespace models the `ChatInterface` component (App.tsx): the
transcript state, the send handler with its streaming, finalization and
error paths, the reset handler, and the composer submit handler.

The `Orch` namespace models the agent-side orchestration loop and Consent
Gate.  That code is not part of this source tree (only the chat frontend
is), so the definitions there are modelled from the specification text and
marked as such.
-/

namespace TravelMcp

namespace Transport

/-- Helper for `splitLines`: prepends a character to the first complete line
when one exists, otherwise to the trailing segment. -/
def consToFirst (c : Char) : List (List Char) × List Char → List (List Char) × List Char
  | ([], r) => ([], c :: r)
  | (l :: ls, r) => ((c :: l) :: ls, r)

/-- Splits a character sequence on newline characters, returning the complete
(newline-terminated) lines together with the trailing segment after the last
newline.  Mirrors the JavaScript idiom in `AgentClient.streamQuery`:
`const lines = buffer.split(newline); buffer = lines.pop()`. -/
def splitLines : List Char → List (List Char) × List Char
  | [] => ([], [])
  | c :: cs =>
    if c = '\n' then ([] :: (splitLines cs).1, (splitLines cs).2)
    else consToFirst c (splitLines cs)

/-- Decodes one complete line exactly as the loop body of `streamQuery` does:
empty lines are skipped, a line starting with the literal prefix `data:` is
stripped of that prefix and of at most one leading space, and the payload is
emitted only when nonempty.  `none` means the line yields no payload. -/
def decodeDataLine (line : List Char) : Option (List Char) :=
  if line = [] then none
  else if ("data:".toList).isPrefixOf line then
    let payload := line.drop 5
    let payload := if payload.head? = some ' ' then payload.drop 1 else payload
    if payload = [] then none else some payload
  else none

/-- End-of-stream flush of `streamQuery` (lines 77-82 of the client): if the
remaining buffer starts with `data:`, decode it the same way and emit the
payload when nonempty. -/
def flushTail (buf : List Char) : List (List Char) :=
  if ("data:".toList).isPrefixOf buf then
    let payload := buf.drop 5
    let payload := if payload.head? = some ' ' then payload.drop 1 else payload
    if payload = [] then [] else [payload]
  else []

/-- One iteration of the read loop of `streamQuery`: append the newly read
characters to the buffer, split on newline, decode every complete line, and
keep the trailing segment as the new buffer. -/
def processRead (buf chunk : List Char) : List (List Char) × List Char :=
  ((splitLines (buf ++ chunk)).1.filterMap decodeDataLine, (splitLines (buf ++ chunk)).2)

/-- The whole read loop of `streamQuery` run to completion: process each read
in order starting from the given buffer, then flush the remaining buffer at
stream end.  Returns the emitted payloads in order. -/
def runReads : List Char → List (List Char) → List (List Char)
  | buf, [] => flushTail buf
  | buf, chunk :: rest =>
    (processRead buf chunk).1 ++ runReads (processRead buf chunk).2 rest

/-- The read loop interrupted by a transport error before `done` is observed:
every read so far has been processed and its payloads emitted, but the
end-of-stream flush never runs. -/
def runReadsNoFlush : List Char → List (List Char) → List (List Char)
  | _, [] => []
  | buf, chunk :: rest =>
    (processRead buf chunk).1 ++ runReadsNoFlush (processRead buf chunk).2 rest

/-- Processing an entire stream delivered as a single read. -/
def processAll (s : List Char) : List (List Char) :=
  (splitLines s).1.filterMap decodeDataLine ++ flushTail (splitLines s).2

/-- Decoding rule exactly as the specification words it (wire framing,
section 4.5): strip the literal `data:` prefix and at most one leading space
and emit the remainder; lines without the prefix yield nothing.  Unlike the
code, this emits the remainder even when it is empty. -/
def specDecodeLine (line : List Char) : Option (List Char) :=
  if ("data:".toList).isPrefixOf line then
    let payload := line.drop 5
    some (if payload.head? = some ' ' then payload.drop 1 else payload)
  else none

/-- Decoding rule as the specification words it, amended with the nonempty
guard that the code applies before emitting a payload. -/
def specDecodeLineNonempty (line : List Char) : Option (List Char) :=
  if ("data:".toList).isPrefixOf line then
    let payload := line.drop 5
    let payload := if payload.head? = some ' ' then payload.drop 1 else payload
    if payload = [] then none else some payload
  else none

/-- Canonical wire framing of one unit of answer text: the literal `data:`
prefix, the optional leading space (present), the unit text, a newline. -/
def frameUnit (t : List Char) : List Char := "data: ".toList ++ t ++ ['\n']

/-- The streaming reader of the non-parsing client variant (the authenticated
build of client.ts): every nonempty decoded read is yielded verbatim with no
frame decoding at all. -/
def runReadsRaw (reads : List (List Char)) : List (List Char) :=
  reads.filter (fun c => !(c = ([] : List Char)))

/-- Model of one run of `streamQuery` including its failure paths: if the
POST fails to establish, the catch handler performs the one-shot request and
yields its response text as a single chunk; if the reader errors mid-stream,
the chunks already emitted stand and the catch handler appends the full
one-shot response after them; otherwise the buffered read loop runs to
completion. -/
def streamQueryRun (established : Bool) (reads : List (List Char))
    (midStreamError : Bool) (fallback : List Char) : List (List Char) :=
  if established = false then [fallback]
  else if midStreamError = true then runReadsNoFlush [] reads ++ [fallback]
  else runReads [] reads

end Transport

namespace Chat

/-- Message roles of the frontend transcript (client.ts `Message`). -/
inductive Role
  | user
  | assistant
  deriving DecidableEq, Repr

/-- One transcript entry of the chat interface. -/
structure ChatMessage where
  role : Role
  content : String
  deriving DecidableEq, Repr

/-- The canonical intro message preset in App.tsx. -/
def presetIntro : ChatMessage :=
  ⟨Role.assistant,
    "Hi! I\x27m your travel concierge. Tell me where you want to go, your budget, and if you\x27re ready to consent to payment when we find the right option."⟩

/-- The fixed apology appended by the catch handler of `ChatInterface.send`. -/
def catchAssistant : ChatMessage :=
  ⟨Role.assistant, "Sorry, I could not reach the agent."⟩

/-- Streaming update of `ChatInterface.send`: replace the last message in
place when it is an in-progress assistant message, otherwise append a new
assistant message carrying the streamed text so far. -/
def upsertAssistant (msgs : List ChatMessage) (streamed : String) : List ChatMessage :=
  match msgs.getLast? with
  | some last =>
    if last.role = Role.assistant then msgs.dropLast ++ [⟨Role.assistant, streamed⟩]
    else msgs ++ [⟨Role.assistant, streamed⟩]
  | none => msgs ++ [⟨Role.assistant, streamed⟩]

/-- Finalization step of `ChatInterface.send` after the stream completes:
replace the in-progress assistant message, keeping its previous content when
nothing was streamed, or append a new assistant message. -/
def finalizeAssistant (msgs : List ChatMessage) (streamed : String) : List ChatMessage :=
  match msgs.getLast? with
  | some last =>
    if last.role = Role.assistant then
      msgs.dropLast ++
        [⟨Role.assistant, if streamed ≠ "" then streamed else last.content⟩]
    else msgs ++ [⟨Role.assistant, streamed⟩]
  | none => msgs ++ [⟨Role.assistant, streamed⟩]

/-- Character-by-character streaming phase of `ChatInterface.send`: for each
delivered character the accumulated text grows and the transcript is updated.
Returns the intermediate transcript states, the final transcript, and the
final accumulated text. -/
def streamPhase : List ChatMessage → String → List Char →
    List (List ChatMessage) × List ChatMessage × String
  | msgs, streamed, [] => ([], msgs, streamed)
  | msgs, streamed, c :: cs =>
    let s2 := streamed.push c
    let m2 := upsertAssistant msgs s2
    let r := streamPhase m2 s2 cs
    (m2 :: r.1, r.2.1, r.2.2)

/-- Observable behavior of the streaming generator during one send: either it
yields its chunks and completes, or it yields some chunks and then throws
(which in the client happens when the stream errors and the one-shot fallback
request fails too). -/
inductive StreamOutcome
  | success (chunks : List String)
  | failure (chunks : List String)

/-- All characters delivered by the generator for the given outcome. -/
def outcomeChars : StreamOutcome → List Char
  | .success chunks => (chunks.map String.toList).flatten
  | .failure chunks => (chunks.map String.toList).flatten

/-- The transcript after one complete `ChatInterface.send` call: the user
message is appended, the streamed characters update the in-progress
assistant message, and the call ends with the finalization step or, when the
generator throws, with the appended apology message. -/
def sendFinal (msgs : List ChatMessage) (text : String) (o : StreamOutcome) :
    List ChatMessage :=
  let m1 := msgs ++ [⟨Role.user, text⟩]
  let p := streamPhase m1 "" (outcomeChars o)
  match o with
  | .success _ => finalizeAssistant p.2.1 p.2.2
  | .failure _ => p.2.1 ++ [catchAssistant]

/-- The sequence of transcript states produced by one `ChatInterface.send`
call, in the order the state setter observes them. -/
def sendTrace (msgs : List ChatMessage) (text : String) (o : StreamOutcome) :
    List (List ChatMessage) :=
  let m1 := msgs ++ [⟨Role.user, text⟩]
  m1 :: (streamPhase m1 "" (outcomeChars o)).1 ++ [sendFinal msgs text o]

/-- All transcript states over a reset-free sequence of requests. -/
def runTrace : List ChatMessage → List (String × StreamOutcome) → List (List ChatMessage)
  | _, [] => []
  | msgs, (t, o) :: rest => sendTrace msgs t o ++ runTrace (sendFinal msgs t o) rest

/-- The transcript after a reset-free sequence of requests. -/
def runFinal : List ChatMessage → List (String × StreamOutcome) → List ChatMessage
  | msgs, [] => msgs
  | msgs, (t, o) :: rest => runFinal (sendFinal msgs t o) rest

/-- One transcript state update as `ChatInterface` performs them: the length
never decreases, and the new state is the old one with a message appended or
with its last message replaced; nothing is ever removed. -/
def UpdateStep (a b : List ChatMessage) : Prop :=
  a.length ≤ b.length ∧ ∃ m, b = a ++ [m] ∨ b = a.dropLast ++ [m]

/-- Strict role alternation of adjacent transcript entries. -/
def alternates : List ChatMessage → Bool
  | [] => true
  | [_] => true
  | a :: b :: rest => decide (a.role ≠ b.role) && alternates (b :: rest)

/-- An outcome whose failure, if any, happened before any chunk was emitted. -/
def goodOutcome : StreamOutcome → Prop
  | .success _ => True
  | .failure chunks => chunks = []

/-- Frontend reset handler (`ChatInterface.reset`): the transcript becomes
exactly the single preset intro message, whatever it was before. -/
def resetTranscript (_prior : List ChatMessage) : List ChatMessage := [presetIntro]

/-- Error text thrown by `AgentClient.sendQuery` on a non-OK response: the
raw response body when nonempty, otherwise a generic status sentence. -/
def sendQueryThrownMessage (body : String) (status : Nat) : String :=
  if body ≠ "" then body else "Agent error: " ++ toString status

/-- Error banner set by the catch handler of `ChatInterface.send` from the
caught error message. -/
def catchBanner (errMessage : String) : String :=
  if errMessage ≠ "" then errMessage else "Failed to reach agent"

/-- Whitespace characters removed by JavaScript `String.prototype.trim`: the
ECMAScript WhiteSpace and LineTerminator code points, namely tab, line feed,
vertical tab, form feed, carriage return, space, no-break space, Ogham space
mark, the en-quad through hair-space range (U+2000 to U+200A), line
separator, paragraph separator, narrow no-break space, medium mathematical
space, ideographic space, and the zero-width no-break space (byte order
mark). -/
def isJsWhitespace (c : Char) : Bool :=
  c == ' ' || c == '\t' || c == '\n' || c == '\r' || c == '\x0b' || c == '\x0c' ||
    c == '\xa0' || c == '\u1680' || (0x2000 ≤ c.toNat && c.toNat ≤ 0x200A) ||
    c == '\u2028' || c == '\u2029' || c == '\u202F' || c == '\u205F' ||
    c == '\u3000' || c == '\uFEFF'

/-- Model of JavaScript `String.prototype.trim` on a character sequence:
remove leading and trailing whitespace. -/
def trimChars (l : List Char) : List Char :=
  ((l.dropWhile isJsWhitespace).reverse.dropWhile isJsWhitespace).reverse

/-- The `Composer.submit` handler: trim the input; when the trimmed text is
empty return early (no send, field kept), otherwise send the trimmed text
and clear the field.  The first component is the argument passed to `onSend`
(or `none` when `onSend` is not invoked); the second is the field content
afterwards. -/
def composerSubmit (text : List Char) : Option (List Char) × List Char :=
  let trimmed := trimChars text
  if trimmed = [] then (none, text) else (some trimmed, [])

end Chat

namespace Orch

/-- Modelled from the spec: the Consent Gate state machine of section 4.3,
with states `none` and `granted`.  The gate itself is not part of this
source tree (only the chat frontend is), so it is modelled from the
specification text. -/
inductive ConsentState
  | none
  | granted
  deriving DecidableEq, Repr

/-- Modelled from the spec: a requested tool invocation (section 3).  The
argument mapping and correlation id play no role in the consent invariant
and are omitted. -/
structure ToolCall where
  name : String
  deriving DecidableEq, Repr

/-- Modelled from the spec: the result recorded for one tool call
(section 3), extended with the ghost field `consentAtDispatch` recording the
Consent Gate state at the moment the call was dispatched, so that the
consent invariant can be stated. -/
structure ToolResult where
  callName : String
  isPayment : Bool
  success : Bool
  error : String
  consentAtDispatch : ConsentState
  deriving DecidableEq, Repr

/-- Modelled from the spec: one transcript entry of a session (section 3). -/
inductive Entry
  | user (content : String)
  | assistant (content : String)
  | tool (result : ToolResult)
  deriving DecidableEq, Repr

/-- Modelled from the spec: one reply of the reasoning oracle (section 6):
either plain text or a batch of requested tool calls. -/
inductive OracleReply
  | text (content : String)
  | calls (toolCalls : List ToolCall)

/-- Modelled from the spec: the fixed degraded fallback message of
section 4.4 step 3. -/
def fallbackMessage : String := "The task could not be completed."

/-- Modelled from the spec: the `max_iterations` bound of section 4.4
(default 20). -/
def maxIterations : Nat := 20

/-- Modelled from the spec: dispatch of a single tool call (section 4.4 step
2c).  `classify` is the payment classification from tool discovery,
`invoke` the Tool Gateway call (success flag and payload or error text).
When the call is payment-classified and the Consent Gate is not granted, the
gateway is not invoked and a failure result with error `consent required` is
synthesized instead.  The second component records whether the gateway was
invoked. -/
def dispatchCall (classify : String → Bool) (invoke : ToolCall → Bool × String)
    (consent : ConsentState) (tc : ToolCall) : ToolResult × Bool :=
  if classify tc.name ∧ consent ≠ ConsentState.granted then
    (⟨tc.name, classify tc.name, false, "consent required", consent⟩, false)
  else
    (⟨tc.name, classify tc.name, (invoke tc).1, (invoke tc).2, consent⟩, true)

/-- Modelled from the spec: the bounded round loop of section 4.4 step 2.
Each oracle reply either terminates the loop with an assistant message or
dispatches its tool calls and continues; exhausting the iteration bound (or
the oracle) terminates with the degraded fallback.  Returns the entries
appended to the transcript and the log of calls actually passed to the Tool
Gateway, each paired with the Consent Gate state at that moment. -/
def runRounds (classify : String → Bool) (invoke : ToolCall → Bool × String)
    (consent : ConsentState) :
    Nat → List OracleReply → List Entry × List (ToolCall × ConsentState)
  | 0, _ => ([Entry.assistant fallbackMessage], [])
  | _ + 1, [] => ([Entry.assistant fallbackMessage], [])
  | _ + 1, OracleReply.text s :: _ => ([Entry.assistant s], [])
  | fuel + 1, OracleReply.calls cs :: rest =>
    let step := cs.map (fun tc => (tc, dispatchCall classify invoke consent tc))
    let entries := step.map (fun p => Entry.tool p.2.1)
    let log := step.filterMap (fun p => if p.2.2 then some (p.1, consent) else Option.none)
    let next := runRounds classify invoke consent fuel rest
    (entries ++ next.1, log ++ next.2)

/-- Modelled from the spec: a session consists of its transcript and the
Consent Gate state (section 3). -/
structure SessionState where
  transcript : List Entry
  consent : ConsentState
  deriving Repr

/-- Modelled from the spec: processing one user request (section 4.4 steps 1
to 3).  The Consent Gate transition of section 4.3 fires when the detection
policy recognizes an affirmative consent utterance in the user message; the
rounds then run with that gate state. -/
def processRequest (classify : String → Bool) (invoke : ToolCall → Bool × String)
    (detect : String → Bool) (st : SessionState) (utterance : String)
    (replies : List OracleReply) : SessionState × List (ToolCall × ConsentState) :=
  let consent2 := if detect utterance then ConsentState.granted else st.consent
  let r := runRounds classify invoke consent2 maxIterations replies
  (⟨st.transcript ++ [Entry.user utterance] ++ r.1, consent2⟩, r.2)

/-- Modelled from the spec: a whole session run over a sequence of requests,
each with the oracle replies observed while serving it.  Returns the final
session state and the accumulated Tool Gateway invocation log. -/
def runSession (classify : String → Bool) (invoke : ToolCall → Bool × String)
    (detect : String → Bool) :
    SessionState → List (String × List OracleReply) →
      SessionState × List (ToolCall × ConsentState)
  | st, [] => (st, [])
  | st, (u, rs) :: rest =>
    let p := processRequest classify invoke detect st u rs
    let r := runSession classify invoke detect p.1 rest
    (r.1, p.2 ++ r.2)

/-- Modelled from the spec: a fresh session starts with an empty transcript
and the Consent Gate at `none` (section 4.1). -/
def initialSession : SessionState := ⟨[], ConsentState.none⟩

/-- Modelled from the spec: the Session Store reset operation clears the
transcript back to the canonical intro message and the Consent Gate back to
`none`, regardless of prior state (section 4.1, scenario D). -/
def resetSession (_prior : SessionState) (intro : String) : SessionState :=
  ⟨[Entry.assistant intro], ConsentState.none⟩

/-- Decidable form of the consent invariant for one entry: a payment tool
result may show success only if the Consent Gate was granted at dispatch. -/
def entryConsentOk : Entry → Bool
  | Entry.tool r =>
    !(r.isPayment && r.success) || decide (r.consentAtDispatch = ConsentState.granted)
  | _ => true

/-- Decidable form of the synthesis rule for one entry: a payment tool
result produced while the gate was not granted is a failure carrying the
`consent required` text. -/
def entrySynthesisOk : Entry → Bool
  | Entry.tool r =>
    (!r.isPayment || decide (r.consentAtDispatch = ConsentState.granted)) ||
      (!r.success && decide (r.error = "consent required"))
  | _ => true

/-- Both per-entry consent conditions at once. -/
def entryOk (e : Entry) : Bool := entryConsentOk e && entrySynthesisOk e

/-- Decidable form of the gateway-side invariant: every call actually passed
to the Tool Gateway that is payment-classified was dispatched while the
Consent Gate was granted. -/
def gatewayLogOk (classify : String → Bool)
    (log : List (ToolCall × ConsentState)) : Bool :=
  log.all (fun p => !(classify p.1.name) || decide (p.2 = ConsentState.granted))

end Orch

/-! ## Theorems -/

namespace Transport

theorem consToFirst_nil (c : Char) (r : List Char) :
    consToFirst c ([], r) = ([], c :: r) := rfl

theorem consToFirst_cons (c : Char) (l : List Char) (ls : List (List Char)) (r : List Char) :
    consToFirst c (l :: ls, r) = ((c :: l) :: ls, r) := rfl

theorem splitLines_no_newline : ∀ {s : List Char}, '\n' ∉ s → splitLines s = ([], s) := by
  intro s
  induction s with
  | nil => intro _; rfl
  | cons c cs ih =>
    intro h
    have hc : c ≠ '\n' := fun hc => h (hc ▸ List.mem_cons_self c cs)
    have hcs : '\n' ∉ cs := fun hm => h (List.mem_cons_of_mem c hm)
    simp [splitLines, hc, ih hcs, consToFirst]

theorem newline_not_mem_snd (s : List Char) : '\n' ∉ (splitLines s).2 := by
  induction s with
  | nil => simp [splitLines]
  | cons c cs ih =>
    by_cases hc : c = '\n'
    · subst hc; simpa [splitLines] using ih
    · rcases hp : splitLines cs with ⟨ls, r⟩
      rw [hp] at ih
      cases ls with
      | nil =>
        simp only [splitLines, if_neg hc, hp, consToFirst]
        intro hmem
        rcases List.mem_cons.mp hmem with h | h
        · exact hc h.symm
        · exact ih h
      | cons l ls2 => simpa [splitLines, hc, hp, consToFirst] using ih

theorem splitLines_append (a b : List Char) :
    splitLines (a ++ b) =
      ((splitLines a).1 ++ (splitLines ((splitLines a).2 ++ b)).1,
        (splitLines ((splitLines a).2 ++ b)).2) := by
  induction a with
  | nil => simp [splitLines]
  | cons c a ih =>
    rcases hp : splitLines a with ⟨ls, r⟩
    rw [hp] at ih
    by_cases hc : c = '\n'
    · subst hc
      simp [splitLines, ih, hp]
    · cases ls with
      | nil =>
        rcases hx : splitLines (r ++ b) with ⟨xs, xr⟩
        rw [hx] at ih
        cases xs with
        | nil =>
          simp [splitLines, hc, ih, hp, hx, consToFirst]
        | cons xl xls =>
          simp [splitLines, hc, ih, hp, hx, consToFirst]
      | cons l ls2 =>
        simp [splitLines, hc, ih, hp, consToFirst]

/-- Running the read loop from any newline-free buffer gives the same result
as processing the buffer and the concatenation of all remaining reads in one
shot.  This is the central lemma behind chunk-boundary invariance. -/
theorem runReads_eq_processAll :
    ∀ (reads : List (List Char)) (buf : List Char), '\n' ∉ buf →
      runReads buf reads = processAll (buf ++ reads.flatten) := by
  intro reads
  induction reads with
  | nil =>
    intro buf hbuf
    simp [runReads, processAll, splitLines_no_newline hbuf, flushTail]
  | cons chunk rest ih =>
    intro buf _
    have hbuf2 : '\n' ∉ (splitLines (buf ++ chunk)).2 := newline_not_mem_snd _
    have hrec := ih (splitLines (buf ++ chunk)).2 hbuf2
    simp only [runReads, processRead, hrec, processAll, List.flatten]
    rw [show buf ++ (chunk ++ rest.flatten) = (buf ++ chunk) ++ rest.flatten by
      simp [List.append_assoc]]
    rw [splitLines_append (buf ++ chunk) rest.flatten]
    simp [List.filterMap_append, List.append_assoc]

/-- Sanity check: the splitter matches the JavaScript split-and-pop idiom. -/
example : splitLines ("ab\ncd".toList) = ([['a', 'b']], ['c', 'd']) := by decide

example : runReads [] ["data: He\nda".toList, "ta: llo\n".toList] =
    [['H', 'e'], ['l', 'l', 'o']] := by decide

/-- C1: for every complete `data:`-framed byte stream and every way of
splitting it into read boundaries, the reassembly loop of `streamQuery`
(buffer, split on newline, decode complete lines, retain the trailing
segment, flush at end) yields the identical concatenated text as processing
the whole stream in a single read. -/
theorem streamQuery_chunk_invariant (reads : List (List Char)) :
    (runReads [] reads).flatten = (runReads [] [reads.flatten]).flatten := by
  have h1 := runReads_eq_processAll reads [] (by simp)
  have h2 := runReads_eq_processAll [reads.flatten] [] (by simp)
  simp only [List.nil_append, List.flatten_cons, List.flatten_nil,
    List.append_nil] at h1 h2
  rw [h1, h2]

theorem decodeDataLine_eq_specNonempty (line : List Char) :
    decodeDataLine line = specDecodeLineNonempty line := by
  cases line with
  | nil => decide
  | cons c cs => simp [decodeDataLine, specDecodeLineNonempty]

theorem flushTail_eq_specNonempty (buf : List Char) :
    flushTail buf = (specDecodeLineNonempty buf).toList := by
  simp only [flushTail, specDecodeLineNonempty]
  split_ifs <;> simp

/-- C3 counterexample: on the read consisting of the line `data:` followed by
a newline, the complete line carries the `data:` prefix with empty remainder;
the claim as stated demands that the (empty) remainder be emitted, but the
client emits nothing because of its nonempty-payload guard. -/
theorem streamQuery_read_step_claim_false :
    ¬ (processRead [] ("data:\n".toList) =
        ((splitLines ("data:\n".toList)).1.filterMap specDecodeLine,
          (splitLines ("data:\n".toList)).2)) := by decide

/-- C3 amended: on each read the client appends the bytes to the buffer,
splits on newline, emits for every complete `data:`-prefixed line the
remainder after stripping the prefix and at most one leading space provided
that remainder is nonempty, retains the (newline-free) trailing segment for
the next read, and at stream end flushes the buffered segment under the same
decoding rule. -/
theorem streamQuery_read_step_amended (buf chunk : List Char) :
    processRead buf chunk =
      ((splitLines (buf ++ chunk)).1.filterMap specDecodeLineNonempty,
        (splitLines (buf ++ chunk)).2) ∧
    '\n' ∉ (processRead buf chunk).2 ∧
    flushTail buf = (specDecodeLineNonempty buf).toList := by
  refine ⟨?_, ?_, flushTail_eq_specNonempty buf⟩
  · unfold processRead
    rw [List.filterMap_congr (fun l _ => decodeDataLine_eq_specNonempty l)]
  · exact newline_not_mem_snd _

theorem splitLines_terminated_line (l : List Char) (h : '\n' ∉ l) :
    splitLines (l ++ ['\n']) = ([l], []) := by
  induction l with
  | nil => decide
  | cons c l ih =>
    have hc : c ≠ '\n' := fun hc => h (hc ▸ List.mem_cons_self c l)
    have hl : '\n' ∉ l := fun hm => h (List.mem_cons_of_mem c hm)
    simp [splitLines, hc, ih hl, consToFirst]

theorem splitLines_framed (texts : List (List Char)) (hnl : ∀ t ∈ texts, '\n' ∉ t) :
    splitLines ((texts.map frameUnit).flatten) =
      (texts.map (fun t => "data: ".toList ++ t), []) := by
  induction texts with
  | nil => simp [splitLines]
  | cons t ts ih =>
    have hnt : '\n' ∉ "data: ".toList ++ t := by
      intro hm
      rcases List.mem_append.mp hm with h | h
      · revert h; decide
      · exact hnl t (List.mem_cons_self t ts) h
    simp only [List.map_cons, List.flatten_cons]
    rw [show frameUnit t ++ (ts.map frameUnit).flatten =
        (("data: ".toList ++ t) ++ ['\n']) ++ (ts.map frameUnit).flatten from by
      simp [frameUnit]]
    rw [splitLines_append, splitLines_terminated_line _ hnt]
    simp [ih (fun x hx => hnl x (List.mem_cons_of_mem t hx))]

theorem decodeDataLine_framed (t : List Char) :
    decodeDataLine ("data: ".toList ++ t) = if t = [] then none else some t := by
  have hrepr : ("data: ".toList : List Char) = ['d', 'a', 't', 'a', ':', ' '] := by decide
  rw [hrepr]
  simp [decodeDataLine, List.isPrefixOf]

theorem flatten_filterMap_framed (texts : List (List Char)) :
    ((texts.map (fun t => "data: ".toList ++ t)).filterMap decodeDataLine).flatten =
      texts.flatten := by
  induction texts with
  | nil => rfl
  | cons t ts ih =>
    by_cases ht : t = []
    · subst ht
      rw [List.map_cons, List.filterMap_cons_none]
      · simpa using ih
      · rw [decodeDataLine_framed]; simp
    · have hd : decodeDataLine ("data: ".toList ++ t) = some t := by
        rw [decodeDataLine_framed, if_neg ht]
      rw [List.map_cons, List.filterMap_cons_some hd, List.flatten_cons, ih,
        List.flatten_cons]

/-- C4 counterexample: the stream framing the answer `hi` as the single line
`data: hi` plus newline is yielded verbatim by the raw (non-parsing) client
streaming reader, so the reconstructed text keeps the framing bytes and does
not equal the answer text. -/
theorem stream_reconstruction_claim_false :
    runReadsRaw [frameUnit ("hi".toList)] = [("data: hi\n".toList)] ∧
    (runReadsRaw [frameUnit ("hi".toList)]).flatten ≠ "hi".toList := by decide

/-- C4 amended: for every stream framed canonically (each answer unit sent as
`data: ` plus the unit text plus a newline, units newline-free) and every way
of splitting it into reads, the buffered reassembling reader yields chunks
whose concatenation equals the answer text exactly, with no framing bytes;
the raw variant reader instead yields the frames verbatim. -/
theorem stream_reconstruction_amended (texts reads : List (List Char))
    (hnl : ∀ t ∈ texts, '\n' ∉ t)
    (hsplit : reads.flatten = (texts.map frameUnit).flatten) :
    (runReads [] reads).flatten = texts.flatten := by
  have h := runReads_eq_processAll reads [] (by simp)
  simp only [List.nil_append] at h
  rw [h, hsplit]
  unfold processAll
  rw [splitLines_framed texts hnl]
  have hflush : flushTail [] = [] := by decide
  show ((texts.map (fun t => "data: ".toList ++ t)).filterMap decodeDataLine ++
    flushTail []).flatten = texts.flatten
  rw [hflush, List.append_nil, flatten_filterMap_framed]

theorem stream_reconstruction_amended_witness :
    (runReads [] ["data: He\nda".toList, "ta: llo\n".toList]).flatten =
      (["He".toList, "llo".toList] : List (List Char)).flatten :=
  stream_reconstruction_amended ["He".toList, "llo".toList]
    ["data: He\nda".toList, "ta: llo\n".toList] (by decide) (by decide)

/-- C5 counterexample: when the stream establishes, emits the chunk `He`, and
then errors, the fallback appends the complete one-shot response `Hello`
after the already-emitted chunk, so the total delivered text is `HeHello`,
not the one-shot response `Hello`. -/
theorem stream_fallback_claim_false :
    ¬ ((streamQueryRun true ["data: He\n".toList] true ("Hello".toList)).flatten
        = "Hello".toList) := by decide

/-- C5 amended: on failure to establish, the client yields exactly the
one-shot response as a single chunk; on a mid-stream error, the total text
delivered is the text already emitted before the error followed by the full
one-shot response, which collapses to exactly the one-shot response only
when nothing was emitted before the error. -/
theorem stream_fallback_amended (established midStreamError : Bool)
    (reads : List (List Char)) (fallback : List Char) :
    (established = false →
      streamQueryRun established reads midStreamError fallback = [fallback]) ∧
    (established = true → midStreamError = true →
      (streamQueryRun established reads midStreamError fallback).flatten =
        (runReadsNoFlush [] reads).flatten ++ fallback) ∧
    (established = true → midStreamError = true → runReadsNoFlush [] reads = [] →
      (streamQueryRun established reads midStreamError fallback).flatten = fallback) := by
  refine ⟨?_, ?_, ?_⟩
  · intro h; subst h; simp [streamQueryRun]
  · intro h1 h2; subst h1; subst h2; simp [streamQueryRun]
  · intro h1 h2 h3; subst h1; subst h2; simp [streamQueryRun, h3]

theorem stream_fallback_amended_witness :
    streamQueryRun false [] true ("Hello".toList) = ["Hello".toList] ∧
    (streamQueryRun true [] true ("Hello".toList)).flatten =
      (runReadsNoFlush [] ([] : List (List Char))).flatten ++ "Hello".toList ∧
    (streamQueryRun true [] true ("Hello".toList)).flatten = "Hello".toList :=
  ⟨(stream_fallback_amended false true [] ("Hello".toList)).1 rfl,
    (stream_fallback_amended true true [] ("Hello".toList)).2.1 rfl rfl,
    (stream_fallback_amended true true [] ("Hello".toList)).2.2 rfl rfl rfl⟩

end Transport

namespace Chat

theorem upsertAssistant_concat_assistant (l : List ChatMessage) (c b : String) :
    upsertAssistant (l ++ [⟨Role.assistant, c⟩]) b = l ++ [⟨Role.assistant, b⟩] := by
  simp [upsertAssistant, List.getLast?_concat]

theorem upsertAssistant_concat_user (l : List ChatMessage) (t s : String) :
    upsertAssistant (l ++ [⟨Role.user, t⟩]) s =
      (l ++ [⟨Role.user, t⟩]) ++ [⟨Role.assistant, s⟩] := by
  simp [upsertAssistant, List.getLast?_concat]

theorem finalizeAssistant_concat_assistant (l : List ChatMessage) (c s : String) :
    finalizeAssistant (l ++ [⟨Role.assistant, c⟩]) s =
      l ++ [⟨Role.assistant, if s ≠ "" then s else c⟩] := by
  simp [finalizeAssistant, List.getLast?_concat]

theorem finalizeAssistant_concat_user (l : List ChatMessage) (t s : String) :
    finalizeAssistant (l ++ [⟨Role.user, t⟩]) s =
      (l ++ [⟨Role.user, t⟩]) ++ [⟨Role.assistant, s⟩] := by
  simp [finalizeAssistant, List.getLast?_concat]

theorem upsertAssistant_eq_or (msgs : List ChatMessage) (s : String) :
    upsertAssistant msgs s = msgs ++ [⟨Role.assistant, s⟩] ∨
      (msgs ≠ [] ∧ upsertAssistant msgs s = msgs.dropLast ++ [⟨Role.assistant, s⟩]) := by
  rcases List.eq_nil_or_concat msgs with h | ⟨l, last, h⟩
  · subst h; exact Or.inl rfl
  · subst h
    simp only [List.concat_eq_append]
    rcases last with ⟨r, c⟩
    cases r with
    | user => exact Or.inl (upsertAssistant_concat_user l c s)
    | assistant =>
      refine Or.inr ⟨by simp, ?_⟩
      rw [upsertAssistant_concat_assistant, List.dropLast_concat]

theorem finalizeAssistant_eq_or (msgs : List ChatMessage) (s : String) :
    (∃ c, finalizeAssistant msgs s = msgs ++ [⟨Role.assistant, c⟩]) ∨
      (msgs ≠ [] ∧
        ∃ c, finalizeAssistant msgs s = msgs.dropLast ++ [⟨Role.assistant, c⟩]) := by
  rcases List.eq_nil_or_concat msgs with h | ⟨l, last, h⟩
  · subst h; exact Or.inl ⟨s, rfl⟩
  · subst h
    simp only [List.concat_eq_append]
    rcases last with ⟨r, c⟩
    cases r with
    | user => exact Or.inl ⟨s, finalizeAssistant_concat_user l c s⟩
    | assistant =>
      refine Or.inr ⟨by simp, if s ≠ "" then s else c, ?_⟩
      rw [finalizeAssistant_concat_assistant, List.dropLast_concat]

theorem length_dropLast_append_one (msgs : List ChatMessage) (m : ChatMessage)
    (h : msgs ≠ []) : (msgs.dropLast ++ [m]).length = msgs.length := by
  have := List.length_pos.mpr h
  simp only [List.length_append, List.length_dropLast, List.length_cons,
    List.length_nil]
  omega

theorem append_one_step (msgs : List ChatMessage) (m : ChatMessage) :
    UpdateStep msgs (msgs ++ [m]) :=
  ⟨by simp, m, Or.inl rfl⟩

theorem upsertAssistant_step (msgs : List ChatMessage) (s : String) :
    UpdateStep msgs (upsertAssistant msgs s) := by
  rcases upsertAssistant_eq_or msgs s with h | ⟨hne, h⟩
  · exact h ▸ append_one_step msgs _
  · exact ⟨by rw [h, length_dropLast_append_one msgs _ hne], _, Or.inr h⟩

theorem finalizeAssistant_step (msgs : List ChatMessage) (s : String) :
    UpdateStep msgs (finalizeAssistant msgs s) := by
  rcases finalizeAssistant_eq_or msgs s with ⟨c, h⟩ | ⟨hne, c, h⟩
  · exact h ▸ append_one_step msgs _
  · exact ⟨by rw [h, length_dropLast_append_one msgs _ hne], _, Or.inr h⟩

theorem upsertAssistant_upsertAssistant (msgs : List ChatMessage) (a b : String) :
    upsertAssistant (upsertAssistant msgs a) b = upsertAssistant msgs b := by
  rcases List.eq_nil_or_concat msgs with h | ⟨l, last, h⟩
  · subst h
    have h1 : upsertAssistant [] a = [] ++ [⟨Role.assistant, a⟩] := rfl
    have h2 : upsertAssistant [] b = [] ++ [⟨Role.assistant, b⟩] := rfl
    rw [h1, upsertAssistant_concat_assistant, h2]
  · subst h
    simp only [List.concat_eq_append]
    rcases last with ⟨r, c⟩
    cases r with
    | user =>
      rw [upsertAssistant_concat_user, upsertAssistant_concat_assistant,
        upsertAssistant_concat_user]
    | assistant =>
      rw [upsertAssistant_concat_assistant, upsertAssistant_concat_assistant,
        upsertAssistant_concat_assistant]

theorem streamPhase_final :
    ∀ (cs : List Char) (msgs : List ChatMessage) (s : String),
      (streamPhase msgs s cs).2.1 =
        (if cs = [] then msgs else upsertAssistant msgs (cs.foldl String.push s)) ∧
      (streamPhase msgs s cs).2.2 = cs.foldl String.push s := by
  intro cs
  induction cs with
  | nil => intro msgs s; simp [streamPhase]
  | cons c cs ih =>
    intro msgs s
    rcases ih (upsertAssistant msgs (s.push c)) (s.push c) with ⟨h1, h2⟩
    simp only [streamPhase]
    constructor
    · rw [h1]
      by_cases hcs : cs = []
      · subst hcs; simp
      · simp [hcs, upsertAssistant_upsertAssistant]
    · rw [h2]; simp

theorem streamPhase_chain :
    ∀ (cs : List Char) (msgs : List ChatMessage) (s : String),
      List.Chain' UpdateStep (msgs :: (streamPhase msgs s cs).1) ∧
      (msgs :: (streamPhase msgs s cs).1).getLast? = some (streamPhase msgs s cs).2.1 := by
  intro cs
  induction cs with
  | nil => intro msgs s; simp [streamPhase]
  | cons c cs ih =>
    intro msgs s
    rcases ih (upsertAssistant msgs (s.push c)) (s.push c) with ⟨h1, h2⟩
    simp only [streamPhase]
    constructor
    · rw [List.chain'_cons]
      exact ⟨upsertAssistant_step msgs (s.push c), h1⟩
    · rw [List.getLast?_cons_cons]
      exact h2

theorem streamPhase_dropLast_prefix :
    ∀ (cs : List Char) (msgs : List ChatMessage) (s : String),
      msgs.dropLast <+: (streamPhase msgs s cs).2.1 := by
  intro cs
  induction cs with
  | nil => intro msgs s; exact List.dropLast_prefix msgs
  | cons c cs ih =>
    intro msgs s
    simp only [streamPhase]
    refine List.IsPrefix.trans ?_ (ih (upsertAssistant msgs (s.push c)) (s.push c))
    rcases upsertAssistant_eq_or msgs (s.push c) with h | ⟨_, h⟩
    · rw [h, List.dropLast_concat]
      exact List.dropLast_prefix msgs
    · rw [h, List.dropLast_concat]

theorem sendTrace_chain (msgs : List ChatMessage) (t : String) (o : StreamOutcome) :
    List.Chain' UpdateStep (msgs :: sendTrace msgs t o) ∧
    (msgs :: sendTrace msgs t o).getLast? = some (sendFinal msgs t o) := by
  have hsplit : msgs :: sendTrace msgs t o =
      (msgs :: (msgs ++ [⟨Role.user, t⟩]) ::
        (streamPhase (msgs ++ [⟨Role.user, t⟩]) "" (outcomeChars o)).1) ++
        [sendFinal msgs t o] := by
    simp [sendTrace]
  have hphase := streamPhase_chain (outcomeChars o) (msgs ++ [⟨Role.user, t⟩]) ""
  constructor
  · rw [hsplit, List.chain'_append]
    refine ⟨?_, ?_, ?_⟩
    · rw [List.chain'_cons]
      exact ⟨append_one_step msgs _, hphase.1⟩
    · simp
    · intro x hx y hy
      rw [List.getLast?_cons_cons, hphase.2] at hx
      simp only [Option.mem_def, Option.some.injEq] at hx hy
      rw [List.head?_cons] at hy
      have hy2 : y = sendFinal msgs t o := by
        simpa using hy.symm
      have hx2 : x = (streamPhase (msgs ++ [⟨Role.user, t⟩]) "" (outcomeChars o)).2.1 := by
        simpa using hx.symm
      subst hy2; subst hx2
      cases o with
      | success chunks =>
        have : sendFinal msgs t (StreamOutcome.success chunks) =
            finalizeAssistant
              ((streamPhase (msgs ++ [⟨Role.user, t⟩]) ""
                (outcomeChars (StreamOutcome.success chunks))).2.1)
              ((streamPhase (msgs ++ [⟨Role.user, t⟩]) ""
                (outcomeChars (StreamOutcome.success chunks))).2.2) := rfl
        rw [this]
        exact finalizeAssistant_step _ _
      | failure chunks =>
        have : sendFinal msgs t (StreamOutcome.failure chunks) =
            (streamPhase (msgs ++ [⟨Role.user, t⟩]) ""
              (outcomeChars (StreamOutcome.failure chunks))).2.1 ++ [catchAssistant] := rfl
        rw [this]
        exact append_one_step _ _
  · rw [hsplit, List.getLast?_concat]

theorem runTrace_chain :
    ∀ (reqs : List (String × StreamOutcome)) (msgs : List ChatMessage),
      List.Chain' UpdateStep (msgs :: runTrace msgs reqs) := by
  intro reqs
  induction reqs with
  | nil => intro msgs; simp [runTrace]
  | cons req rest ih =>
    intro msgs
    rcases req with ⟨t, o⟩
    have hst := sendTrace_chain msgs t o
    have hs : msgs :: runTrace msgs ((t, o) :: rest) =
        (msgs :: sendTrace msgs t o) ++ runTrace (sendFinal msgs t o) rest := by
      simp [runTrace]
    rw [hs, List.chain'_append]
    refine ⟨hst.1, (ih (sendFinal msgs t o)).tail, ?_⟩
    intro x hx y hy
    rw [hst.2] at hx
    simp only [Option.mem_def, Option.some.injEq] at hx
    have hx2 : x = sendFinal msgs t o := by simpa using hx.symm
    subst hx2
    cases rest with
    | nil => simp [runTrace] at hy
    | cons req2 rest2 =>
      rcases req2 with ⟨t2, o2⟩
      have hh : (runTrace (sendFinal msgs t o) ((t2, o2) :: rest2)).head? =
          some (sendFinal msgs t o ++ [⟨Role.user, t2⟩]) := by
        simp [runTrace, sendTrace]
      rw [hh] at hy
      simp only [Option.mem_def, Option.some.injEq] at hy
      have hy2 : y = sendFinal msgs t o ++ [⟨Role.user, t2⟩] := by simpa using hy.symm
      subst hy2
      exact append_one_step _ _

theorem alternates_append_pair (a b : ChatMessage) :
    ∀ (l : List ChatMessage), alternates l = true →
      (∀ x ∈ l.getLast?, x.role ≠ a.role) → a.role ≠ b.role →
      alternates (l ++ [a, b]) = true
  | [], _, _, hab => by simp [alternates, hab]
  | [x], _, hx, hab => by
    have hxa := hx x (by simp)
    simp [alternates, hab, hxa]
  | x :: y :: rest, h, hx, hab => by
    simp only [alternates, Bool.and_eq_true, decide_eq_true_eq] at h
    have hrec := alternates_append_pair a b (y :: rest) h.2
      (by
        intro z hz
        apply hx
        simpa [List.getLast?_cons_cons] using hz) hab
    simpa [alternates, h.1] using hrec

theorem sendFinal_good (msgs : List ChatMessage) (t : String) (o : StreamOutcome)
    (hgood : goodOutcome o) :
    ∃ s, sendFinal msgs t o = (msgs ++ [⟨Role.user, t⟩]) ++ [⟨Role.assistant, s⟩] := by
  cases o with
  | failure chunks =>
    have hc : chunks = [] := hgood
    subst hc
    exact ⟨"Sorry, I could not reach the agent.",
      by simp [sendFinal, outcomeChars, streamPhase, catchAssistant]⟩
  | success chunks =>
    have hfin := streamPhase_final (outcomeChars (StreamOutcome.success chunks))
      (msgs ++ [⟨Role.user, t⟩]) ""
    have hdef : sendFinal msgs t (StreamOutcome.success chunks) =
        finalizeAssistant
          ((streamPhase (msgs ++ [⟨Role.user, t⟩]) ""
            (outcomeChars (StreamOutcome.success chunks))).2.1)
          ((streamPhase (msgs ++ [⟨Role.user, t⟩]) ""
            (outcomeChars (StreamOutcome.success chunks))).2.2) := rfl
    by_cases hcs : outcomeChars (StreamOutcome.success chunks) = []
    · refine ⟨"", ?_⟩
      rw [hdef, hfin.1, hfin.2, if_pos hcs, hcs]
      simp only [List.foldl_nil]
      rw [finalizeAssistant_concat_user]
    · refine ⟨if List.foldl String.push "" (outcomeChars (StreamOutcome.success chunks)) ≠ ""
          then List.foldl String.push "" (outcomeChars (StreamOutcome.success chunks))
          else List.foldl String.push "" (outcomeChars (StreamOutcome.success chunks)), ?_⟩
      rw [hdef, hfin.1, hfin.2, if_neg hcs, upsertAssistant_concat_user,
        finalizeAssistant_concat_assistant]

/-- C8 counterexample: in the run where the single request streams the
partial answer `He` and then the generator throws (stream error followed by
a failing one-shot fallback), the catch handler appends the apology after
the partial assistant message, so the final transcript holds two adjacent
assistant messages and strict alternation fails. -/
theorem transcript_alternation_claim_false :
    alternates (runFinal [presetIntro] [("hi", StreamOutcome.failure ["He"])]) = false := by
  decide

/-- C8 amended: over any reset-free sequence of requests, every transcript
state update appends a message or replaces the last one (never removes), so
the transcript length is monotonically non-decreasing; and the final
transcript strictly alternates user and assistant messages provided every
failing stream threw before emitting any chunk.  When a stream errors after
emitting chunks and the fallback also fails, the partial assistant message
and the apology sit adjacent and alternation does not hold. -/
theorem transcript_monotone_alternation_amended (reqs : List (String × StreamOutcome)) :
    List.Chain' UpdateStep ([presetIntro] :: runTrace [presetIntro] reqs) ∧
    ((∀ t o, (t, o) ∈ reqs → goodOutcome o) →
      alternates (runFinal [presetIntro] reqs) = true) := by
  constructor
  · exact runTrace_chain reqs [presetIntro]
  · intro hgood
    have hmain :
        ∀ (rs : List (String × StreamOutcome)) (msgs : List ChatMessage),
          alternates msgs = true →
          (∀ x ∈ msgs.getLast?, x.role = Role.assistant) →
          (∀ t o, (t, o) ∈ rs → goodOutcome o) →
          alternates (runFinal msgs rs) = true ∧
            (∀ x ∈ (runFinal msgs rs).getLast?, x.role = Role.assistant) := by
      intro rs
      induction rs with
      | nil => intro msgs h1 h2 _; exact ⟨h1, h2⟩
      | cons req rest ih =>
        intro msgs h1 h2 hg
        rcases req with ⟨t, o⟩
        obtain ⟨s, hs⟩ := sendFinal_good msgs t o (hg t o (by simp))
        have halt : alternates (sendFinal msgs t o) = true := by
          rw [hs, show (msgs ++ [⟨Role.user, t⟩]) ++ [⟨Role.assistant, s⟩] =
            msgs ++ [⟨Role.user, t⟩, ⟨Role.assistant, s⟩] by simp]
          refine alternates_append_pair ⟨Role.user, t⟩ ⟨Role.assistant, s⟩ msgs h1 ?_
            (by simp)
          intro x hx
          rw [h2 x hx]
          simp
        have hlast : ∀ x ∈ (sendFinal msgs t o).getLast?, x.role = Role.assistant := by
          intro x hx
          rw [hs, List.getLast?_concat] at hx
          simp only [Option.mem_def, Option.some.injEq] at hx
          have : x = ⟨Role.assistant, s⟩ := by simpa using hx.symm
          subst this
          rfl
        have hrun : runFinal msgs ((t, o) :: rest) = runFinal (sendFinal msgs t o) rest := rfl
        rw [hrun]
        exact ih (sendFinal msgs t o) halt hlast
          (fun t2 o2 hm => hg t2 o2 (List.mem_cons_of_mem _ hm))
    exact (hmain reqs [presetIntro] rfl (by intro x hx; simp at hx; subst hx; rfl) hgood).1

theorem transcript_monotone_alternation_amended_witness :
    alternates (runFinal [presetIntro] [("hi", StreamOutcome.success ["He"])]) = true :=
  (transcript_monotone_alternation_amended [("hi", StreamOutcome.success ["He"])]).2
    (by
      intro t o hm
      simp only [List.mem_singleton, Prod.mk.injEq] at hm
      rw [hm.2]
      trivial)

/-- C9: while an assistant answer is streaming, every state update either
appends a message or replaces the last message of the transcript in place,
and every message other than the last is unchanged: the transcript minus its
last entry is a prefix of the updated transcript, for the per-character
streaming update, for the finalization step, and across the whole streaming
phase. -/
theorem streaming_updates_frame (msgs : List ChatMessage) (streamed : String)
    (cs : List Char) :
    msgs.dropLast <+: upsertAssistant msgs streamed ∧
    (∃ m, upsertAssistant msgs streamed = msgs ++ [m] ∨
      upsertAssistant msgs streamed = msgs.dropLast ++ [m]) ∧
    msgs.dropLast <+: finalizeAssistant msgs streamed ∧
    (∃ m, finalizeAssistant msgs streamed = msgs ++ [m] ∨
      finalizeAssistant msgs streamed = msgs.dropLast ++ [m]) ∧
    msgs.dropLast <+: (streamPhase msgs streamed cs).2.1 := by
  refine ⟨?_, ?_, ?_, ?_, streamPhase_dropLast_prefix cs msgs streamed⟩
  · rcases upsertAssistant_eq_or msgs streamed with h | ⟨_, h⟩
    · rw [h]
      exact (List.dropLast_prefix msgs).trans (List.prefix_append msgs _)
    · rw [h]
      exact List.prefix_append _ _
  · rcases upsertAssistant_eq_or msgs streamed with h | ⟨_, h⟩
    · exact ⟨_, Or.inl h⟩
    · exact ⟨_, Or.inr h⟩
  · rcases finalizeAssistant_eq_or msgs streamed with ⟨c, h⟩ | ⟨_, c, h⟩
    · rw [h]
      exact (List.dropLast_prefix msgs).trans (List.prefix_append msgs _)
    · rw [h]
      exact List.prefix_append _ _
  · rcases finalizeAssistant_eq_or msgs streamed with ⟨c, h⟩ | ⟨_, c, h⟩
    · exact ⟨_, Or.inl h⟩
    · exact ⟨_, Or.inr h⟩

/-- C6 counterexample: when the one-shot request returns a non-OK response
whose body is a raw error page, `sendQuery` throws that body as the error
message and the catch handler places it verbatim in the user-visible error
banner, so the raw transport error body does reach user-visible state. -/
theorem error_surface_claim_false :
    catchBanner (sendQueryThrownMessage "<html>500 Internal Server Error</html>" 500) =
      "<html>500 Internal Server Error</html>" := by decide

/-- C6 amended: the assistant message appended on a failing request is always
the fixed sentence `Sorry, I could not reach the agent.`; the error banner,
however, shows the thrown error message, which for a non-OK one-shot
response is the raw response body whenever that body is nonempty (and a
generic `Agent error:` sentence with the status code otherwise), so raw
transport error text can reach the banner. -/
theorem error_surface_amended (msgs : List ChatMessage) (text : String)
    (chunks : List String) (body : String) (status : Nat) :
    (sendFinal msgs text (StreamOutcome.failure chunks)).getLast? = some catchAssistant ∧
    catchAssistant.content = "Sorry, I could not reach the agent." ∧
    (body ≠ "" → catchBanner (sendQueryThrownMessage body status) = body) ∧
    (body = "" → catchBanner (sendQueryThrownMessage body status) =
      "Agent error: " ++ toString status) := by
  refine ⟨?_, rfl, ?_, ?_⟩
  · have hdef : sendFinal msgs text (StreamOutcome.failure chunks) =
        (streamPhase (msgs ++ [⟨Role.user, text⟩]) ""
          (outcomeChars (StreamOutcome.failure chunks))).2.1 ++ [catchAssistant] := rfl
    rw [hdef, List.getLast?_concat]
  · intro h
    rw [sendQueryThrownMessage, if_pos h, catchBanner, if_pos h]
  · intro h
    subst h
    rw [sendQueryThrownMessage]
    simp only [ne_eq, not_true_eq_false, if_false]
    rw [catchBanner]
    have : ("Agent error: " ++ toString status) ≠ "" := by
      intro hc
      have hlen := congrArg String.length hc
      rw [String.length_append] at hlen
      have h13 : "Agent error: ".length = 13 := rfl
      rw [h13] at hlen
      simp at hlen
    rw [if_pos this]

theorem error_surface_amended_witness :
    (sendFinal [presetIntro] "book it" (StreamOutcome.failure ["He"])).getLast? =
      some catchAssistant ∧
    catchBanner (sendQueryThrownMessage "boom" 502) = "boom" :=
  ⟨(error_surface_amended [presetIntro] "book it" ["He"] "boom" 502).1,
    (error_surface_amended [presetIntro] "book it" ["He"] "boom" 502).2.2.1 (by decide)⟩

/-- C7: after a reset, regardless of prior conversation state, the frontend
transcript consists of exactly the single canonical intro message (the
preset assistant greeting), and the session reset modelled from the
specification puts the Consent Gate back to `none` with the transcript
reduced to the single canonical intro entry. -/
theorem reset_clears_state (msgs : List ChatMessage) (st : Orch.SessionState) :
    resetTranscript msgs = [presetIntro] ∧
    (resetTranscript msgs).length = 1 ∧
    presetIntro.role = Role.assistant ∧
    (Orch.resetSession st presetIntro.content).consent = Orch.ConsentState.none ∧
    (Orch.resetSession st presetIntro.content).transcript =
      [Orch.Entry.assistant presetIntro.content] :=
  ⟨rfl, rfl, rfl, rfl, rfl⟩

theorem trimChars_eq_nil_iff (l : List Char) :
    trimChars l = [] ↔ l.all isJsWhitespace = true := by
  unfold trimChars
  rw [List.reverse_eq_nil_iff, List.dropWhile_eq_nil_iff, List.all_eq_true]
  constructor
  · intro h x hx
    have hsplit : l.takeWhile isJsWhitespace ++ l.dropWhile isJsWhitespace = l :=
      List.takeWhile_append_dropWhile isJsWhitespace l
    rw [← hsplit] at hx
    rcases List.mem_append.mp hx with hx | hx
    · exact List.mem_takeWhile_imp hx
    · exact h x (List.mem_reverse.mpr hx)
  · intro h x hx
    exact h x (List.Sublist.mem (List.mem_reverse.mp hx)
      (List.dropWhile_sublist isJsWhitespace))

theorem reverse_dropWhile_takeWhile_decomp (m : List Char) :
    m = (m.reverse.dropWhile isJsWhitespace).reverse ++
        (m.reverse.takeWhile isJsWhitespace).reverse := by
  conv_lhs => rw [← List.reverse_reverse m,
    ← List.takeWhile_append_dropWhile isJsWhitespace m.reverse]
  rw [List.reverse_append]

theorem trimChars_decomposition (l : List Char) :
    ∃ pre post, pre.all isJsWhitespace = true ∧ post.all isJsWhitespace = true ∧
      l = pre ++ trimChars l ++ post := by
  refine ⟨l.takeWhile isJsWhitespace,
    ((l.dropWhile isJsWhitespace).reverse.takeWhile isJsWhitespace).reverse, ?_, ?_, ?_⟩
  · rw [List.all_eq_true]
    intro x hx
    exact List.mem_takeWhile_imp hx
  · rw [List.all_eq_true]
    intro x hx
    exact List.mem_takeWhile_imp (List.mem_reverse.mp hx)
  · have h2 : l.dropWhile isJsWhitespace =
        trimChars l ++
          ((l.dropWhile isJsWhitespace).reverse.takeWhile isJsWhitespace).reverse := by
      unfold trimChars
      exact reverse_dropWhile_takeWhile_decomp (l.dropWhile isJsWhitespace)
    conv_lhs => rw [← List.takeWhile_append_dropWhile isJsWhitespace l, h2]
    rw [List.append_assoc]

/-- Sanity check: ideographic space and the byte order mark are trimmed,
so an input of only such characters performs no send and keeps the field. -/
example : composerSubmit ['\u3000'] = (none, ['\u3000']) := by decide

example : composerSubmit ("\u3000hi\uFEFF".toList) = (some ['h', 'i'], []) := by decide

/-- C10: pressing send in the composer with an input consisting only of
whitespace performs no send at all (`onSend` is not invoked and the field
content is retained); for every other input, `onSend` receives the input
with leading and trailing whitespace removed (a nonempty text flanked in the
original input by whitespace runs) and the field is cleared. -/
theorem composer_submit_correct (text : List Char) :
    composerSubmit text =
      (if text.all isJsWhitespace = true then (none, text)
        else (some (trimChars text), [])) ∧
    (trimChars text = [] ↔ text.all isJsWhitespace = true) ∧
    (∃ pre post, pre.all isJsWhitespace = true ∧ post.all isJsWhitespace = true ∧
      text = pre ++ trimChars text ++ post) := by
  refine ⟨?_, trimChars_eq_nil_iff text, trimChars_decomposition text⟩
  unfold composerSubmit
  by_cases h : text.all isJsWhitespace = true
  · rw [if_pos ((trimChars_eq_nil_iff text).mpr h), if_pos h]
  · rw [if_neg (fun hc => h ((trimChars_eq_nil_iff text).mp hc)), if_neg h]

end Chat

namespace Orch

theorem dispatchCall_ok (classify : String → Bool) (invoke : ToolCall → Bool × String)
    (consent : ConsentState) (tc : ToolCall) :
    entryOk (Entry.tool (dispatchCall classify invoke consent tc).1) = true ∧
    ((dispatchCall classify invoke consent tc).2 = true → classify tc.name = true →
      consent = ConsentState.granted) := by
  unfold dispatchCall
  by_cases h : classify tc.name = true ∧ consent ≠ ConsentState.granted
  · rw [if_pos (by exact_mod_cast h)]
    constructor
    · simp [entryOk, entryConsentOk, entrySynthesisOk]
    · intro hinv
      simp at hinv
  · constructor
    · by_cases hc : classify tc.name = true
      · have hg : consent = ConsentState.granted := by
          by_contra hng
          exact h ⟨hc, hng⟩
        rw [if_neg (by exact_mod_cast h)]
        simp [entryOk, entryConsentOk, entrySynthesisOk, hc, hg]
      · rw [if_neg (by exact_mod_cast h)]
        simp only [Bool.not_eq_true] at hc
        simp [entryOk, entryConsentOk, entrySynthesisOk, hc]
    · intro _ hc
      by_contra hng
      exact h ⟨hc, hng⟩

theorem runRounds_ok (classify : String → Bool) (invoke : ToolCall → Bool × String)
    (consent : ConsentState) :
    ∀ (fuel : Nat) (replies : List OracleReply),
      (runRounds classify invoke consent fuel replies).1.all entryOk = true ∧
      gatewayLogOk classify (runRounds classify invoke consent fuel replies).2 = true := by
  intro fuel
  induction fuel with
  | zero =>
    intro replies
    simp [runRounds, entryOk, entryConsentOk, entrySynthesisOk, gatewayLogOk]
  | succ fuel ih =>
    intro replies
    cases replies with
    | nil => simp [runRounds, entryOk, entryConsentOk, entrySynthesisOk, gatewayLogOk]
    | cons reply rest =>
      cases reply with
      | text s =>
        simp [runRounds, entryOk, entryConsentOk, entrySynthesisOk, gatewayLogOk]
      | calls cs =>
        rcases ih rest with ⟨h1, h2⟩
        simp only [runRounds]
        constructor
        · rw [List.all_append, Bool.and_eq_true]
          refine ⟨?_, h1⟩
          rw [List.all_eq_true]
          intro e he
          rw [List.mem_map] at he
          obtain ⟨p, hp, hpe⟩ := he
          rw [List.mem_map] at hp
          obtain ⟨tc, _, htc⟩ := hp
          subst htc
          subst hpe
          exact (dispatchCall_ok classify invoke consent tc).1
        · unfold gatewayLogOk at h2 ⊢
          rw [List.all_append, Bool.and_eq_true]
          refine ⟨?_, h2⟩
          rw [List.all_eq_true]
          intro q hq
          rw [List.mem_filterMap] at hq
          obtain ⟨p, hp, hpq⟩ := hq
          rw [List.mem_map] at hp
          obtain ⟨tc, _, htc⟩ := hp
          subst htc
          by_cases hd : (dispatchCall classify invoke consent tc).2 = true
          · rw [if_pos hd] at hpq
            have hq2 : q = (tc, consent) := by
              simpa using hpq.symm
            subst hq2
            by_cases hc : classify tc.name = true
            · have := (dispatchCall_ok classify invoke consent tc).2 hd hc
              simp [this]
            · simp only [Bool.not_eq_true] at hc
              simp [hc]
          · rw [if_neg hd] at hpq
            simp at hpq

theorem runSession_ok (classify : String → Bool) (invoke : ToolCall → Bool × String)
    (detect : String → Bool) :
    ∀ (reqs : List (String × List OracleReply)) (st : SessionState),
      st.transcript.all entryOk = true →
      (runSession classify invoke detect st reqs).1.transcript.all entryOk = true ∧
      gatewayLogOk classify (runSession classify invoke detect st reqs).2 = true := by
  intro reqs
  induction reqs with
  | nil => intro st h; exact ⟨h, rfl⟩
  | cons req rest ih =>
    intro st h
    rcases req with ⟨u, rs⟩
    have hround := runRounds_ok classify invoke
      (if detect u then ConsentState.granted else st.consent) maxIterations rs
    have htrans :
        (processRequest classify invoke detect st u rs).1.transcript.all entryOk = true := by
      simp only [processRequest]
      rw [List.all_append, List.all_append, Bool.and_eq_true, Bool.and_eq_true]
      exact ⟨⟨h, by simp [entryOk, entryConsentOk, entrySynthesisOk]⟩, hround.1⟩
    rcases ih (processRequest classify invoke detect st u rs).1 htrans with ⟨ih1, ih2⟩
    refine ⟨ih1, ?_⟩
    unfold gatewayLogOk at hround ih2 ⊢
    rw [show (runSession classify invoke detect st ((u, rs) :: rest)).2 =
        (processRequest classify invoke detect st u rs).2 ++
          (runSession classify invoke detect
            (processRequest classify invoke detect st u rs).1 rest).2 from rfl]
    rw [List.all_append, Bool.and_eq_true]
    exact ⟨hround.2, ih2⟩

/-- C2 (spec-modelled): for every session and every sequence of requests, no
recorded tool result for a payment-classified tool shows success unless the
Consent Gate was granted at the moment the invocation was dispatched; every
payment result produced while the gate was not granted is a synthesized
failure carrying the `consent required` clarification; and the Tool Gateway
is never invoked for a payment-classified call while the gate is not
granted. -/
theorem consent_gate_invariant (classify : String → Bool)
    (invoke : ToolCall → Bool × String) (detect : String → Bool)
    (reqs : List (String × List OracleReply)) :
    (runSession classify invoke detect initialSession reqs).1.transcript.all
      entryConsentOk = true ∧
    (runSession classify invoke detect initialSession reqs).1.transcript.all
      entrySynthesisOk = true ∧
    gatewayLogOk classify
      (runSession classify invoke detect initialSession reqs).2 = true := by
  have h := runSession_ok classify invoke detect reqs initialSession rfl
  rcases h with ⟨h1, h2⟩
  rw [List.all_eq_true] at h1
  refine ⟨?_, ?_, h2⟩
  · rw [List.all_eq_true]
    intro e he
    have := h1 e he
    unfold entryOk at this
    rw [Bool.and_eq_true] at this
    exact this.1
  · rw [List.all_eq_true]
    intro e he
    have := h1 e he
    unfold entryOk at this
    rw [Bool.and_eq_true] at this
    exact this.2

/-- Sanity check: a payment tool requested while the gate is at `none` is
recorded as a synthesized `consent required` failure and the gateway log
stays empty, while the same request after an affirmative consent utterance
invokes the gateway. -/
example :
    runRounds (fun _ => true) (fun _ => (true, "ok")) ConsentState.none 5
      [OracleReply.calls [⟨"payTour"⟩]] =
      ([Entry.tool ⟨"payTour", true, false, "consent required", ConsentState.none⟩,
        Entry.assistant fallbackMessage], []) := by decide

example :
    runRounds (fun _ => true) (fun _ => (true, "ok")) ConsentState.granted 5
      [OracleReply.calls [⟨"payTour"⟩]] =
      ([Entry.tool ⟨"payTour", true, true, "ok", ConsentState.granted⟩,
        Entry.assistant fallbackMessage], [(⟨"payTour"⟩, ConsentState.granted)]) := by decide

end Orch

end TravelMcp
